import Mathlib

/-
Verification of the long-term memory store (`lib/long_memory.py`) against its
specification. The store persists text fragments tagged with owner, namespace
and timestamp in an external vector engine and retrieves them by similarity,
filtered by owner, namespace and an optional timestamp window.

Shallow embedding: Python dicts become association lists over a dynamic value
type, optional fields become `Option`, and operations that can raise
(`IndexError` on `[0]`, `KeyError` on `m["namespace"]`) return `Except Unit`.
-/

namespace LongMemory

/-- Dynamic value stored in a metadata mapping: Python `None`, `str` or `int`. -/
inductive Value where
  | null : Value
  | str (s : String) : Value
  | int (n : Int) : Value
deriving DecidableEq, Repr

/-- A string-keyed mapping (Python `dict`), as an association list: first
binding of a key wins on lookup. -/
def assocLookup {β : Type} (m : List (String × β)) (k : String) : Option β :=
  match m with
  | [] => none
  | (k₀, v) :: rest => if k₀ = k then some v else assocLookup rest k

/-- Python `d[k] = v` on a dict: replaces the binding of `k` if present,
appends it otherwise. -/
def assocInsert {β : Type} (m : List (String × β)) (k : String) (v : β) :
    List (String × β) :=
  match m with
  | [] => [(k, v)]
  | (k₀, v₀) :: rest =>
    if k₀ = k then (k, v) :: rest else (k₀, v₀) :: assocInsert rest k v

/-- A metadata mapping: string keys to dynamic values. -/
abbrev Meta := List (String × Value)

/-- Python `base.update(extra)`: each binding of `extra` is written into
`base` in order, overwriting existing keys. -/
def dictUpdate (base : Meta) (extra : Meta) : Meta :=
  extra.foldl (fun acc kv => assocInsert acc kv.1 kv.2) base

/-- Python `m.get(k)`: the stored value, or `None` when the key is absent. -/
def dictGet (m : Meta) (k : String) : Value :=
  match assocLookup m k with
  | some v => v
  | none => Value.null

/-- Python `m.get(k, d)`: the stored value, or the default `d` when absent. -/
def dictGetD (m : Meta) (k : String) (d : Value) : Value :=
  match assocLookup m k with
  | some v => v
  | none => d

/-- `MemoryFragment` from `lib/short_memory.py` as consumed here. The fields
are dynamically typed in the source; a fragment built by a caller for
`register` carries `str` owner/namespace and `int` timestamp, while a fragment
rebuilt by `search` carries whatever the engine's metadata held. -/
structure MemoryFragment where
  content : String
  owner : Value
  «namespace» : Value
  timestamp : Value
deriving DecidableEq, Repr

/-- `TimestampFilter` (`long_memory.py`): both bounds default to `None`. -/
structure TimestampFilter where
  greater_than_value : Option Int := none
  lower_than_value : Option Int := none
deriving DecidableEq, Repr

/-- `LongTermMemory.register`: the `complete_metadata` record passed to the
engine, built from the fragment's own fields and then—when the caller passed a
truthy (non-`None`, non-empty) extra mapping—updated with it in place. -/
def registerMetadata (f : MemoryFragment) (metadata : Option Meta) : Meta :=
  let complete : Meta :=
    [("owner", f.owner), ("namespace", f.«namespace»), ("timestamp", f.timestamp)]
  match metadata with
  | none => complete
  | some extra => if extra = [] then complete else dictUpdate complete extra

/-- Comparison operator of the engine's filter grammar. -/
inductive Op where
  | eq : Op
  | gt : Op
  | lt : Op
deriving DecidableEq, Repr

/-- One conjunct `{field: {op: value}}` of the `$and` filter predicate. -/
structure Cond where
  field : String
  op : Op
  value : Value
deriving DecidableEq, Repr

/-- The namespace argument of `search` is `Optional[str]`. -/
def valueOfOptStr : Option String → Value
  | none => Value.null
  | some s => Value.str s

/-- The two conditions `search` always places in the `$and` list. -/
def baseWhere (owner : String) (ns : Option String) : List Cond :=
  [⟨"namespace", Op.eq, valueOfOptStr ns⟩, ⟨"owner", Op.eq, Value.str owner⟩]

/-- Conditions appended for `timestamp_filter.greater_than_value`: appended
exactly when the value is truthy (not `None` and non-zero). -/
def gtConds (tf : TimestampFilter) : List Cond :=
  match tf.greater_than_value with
  | none => []
  | some g => if g = 0 then [] else [⟨"timestamp", Op.gt, Value.int g⟩]

/-- Conditions appended for `timestamp_filter.lower_than_value`: appended
exactly when the value is truthy (not `None` and non-zero). -/
def ltConds (tf : TimestampFilter) : List Cond :=
  match tf.lower_than_value with
  | none => []
  | some l => if l = 0 then [] else [⟨"timestamp", Op.lt, Value.int l⟩]

/-- The `where` predicate `search` submits, `{"$and": [...]}` represented by
its list of conjuncts. A `TimestampFilter` instance is always truthy in
Python, so the timestamp branches run whenever the filter argument is not
`None`. -/
def buildWhere (owner : String) (ns : Option String) (tf : Option TimestampFilter) :
    List Cond :=
  baseWhere owner ns ++
    (match tf with
     | none => []
     | some t => gtConds t ++ ltConds t)

/-- The query `search` submits to `self.vector_store.query`. -/
structure EngineQuery where
  query_texts : List String
  n_results : Int
  whereFilter : List Cond
deriving DecidableEq, Repr

/-- `search` submits `query_texts=[query_text]`, `n_results=limit` and the
constructed `where` predicate. Parameter order follows the source. -/
def searchQuery (query_text : String) (owner : String) (limit : Int)
    (timestamp_filter : Option TimestampFilter) (ns : Option String) : EngineQuery :=
  ⟨[query_text], limit, buildWhere owner ns timestamp_filter⟩

/-- The engine's response to `query`: each key may be absent (`Option`), and
when present holds an outer list (one inner list per submitted query text). -/
structure EngineResponse where
  documents : Option (List (List String))
  metadatas : Option (List (List Meta))
  distances : Option (List (List Rat))
deriving DecidableEq, Repr

/-- Python `xs[0]`: the first element, or an `IndexError` on an empty list. -/
def headOrError {α : Type} : List α → Except Unit α
  | [] => Except.error ()
  | x :: _ => Except.ok x

/-- `result.get(key, [[]])[0]`: default the absent key to `[[]]`, then take
the first inner list—which raises when the key is present but bound to an
empty outer list. -/
def getOuter {α : Type} (field : Option (List (List α))) : Except Unit (List α) :=
  headOrError (field.getD [[]])

/-- The reconstruction loop of `search`: one fragment per `zip` position,
reading `owner` and `timestamp` with `meta.get` (`None` when absent) and
`namespace` with default `"default"`. -/
def rebuildFragments (documents : List String) (metadatas : List Meta) :
    List MemoryFragment :=
  (documents.zip metadatas).map fun p =>
    { content := p.1
      owner := dictGet p.2 "owner"
      «namespace» := dictGetD p.2 "namespace" (Value.str "default")
      timestamp := dictGet p.2 "timestamp" }

/-- `MemorySearchResult`: fragments plus a metadata dict, which `search`
populates as `{"distances": [...]}`. -/
structure MemorySearchResult where
  fragments : List MemoryFragment
  metadata : List (String × List Rat)
deriving DecidableEq, Repr

/-- `result.metadata["distances"]`-style read of the distance sequence. -/
def resultDistances (res : MemorySearchResult) : List Rat :=
  match res.metadata.lookup "distances" with
  | some d => d
  | none => []

/-- The response-processing tail of `search` (lines 155–170): index the three
result fields, rebuild the fragments, and package the distances; any
`IndexError` raised by a `[0]` indexing is the `Except.error` case. -/
def processResponse (r : EngineResponse) : Except Unit MemorySearchResult := do
  let documents ← getOuter r.documents
  let metadatas ← getOuter r.metadatas
  let fragments := rebuildFragments documents metadatas
  let distances ← getOuter r.distances
  return { fragments := fragments, metadata := [("distances", distances)] }

/-- Whether an `Except` is the ok case. -/
def isOkB {α : Type} : Except Unit α → Bool
  | Except.ok _ => true
  | Except.error _ => false

/-- Whether a response field would survive the `[0]` indexing: it is either
absent (defaulted to `[[]]`) or bound to a nonempty outer list. -/
def outerOkB {α : Type} : Option (List (List α)) → Bool
  | none => true
  | some [] => false
  | some (_ :: _) => true

/-- Length of the first inner list of a response field, after the
`result.get(key, [[]])` defaulting (`0` when the outer list is empty). -/
def innerLen {α : Type} (o : Option (List (List α))) : Nat :=
  ((o.getD [[]]).headD []).length

/-- Whole `search`, with the engine abstracted as a function from the
submitted query to its response. -/
def search (engine : EngineQuery → EngineResponse) (query_text : String)
    (owner : String) (limit : Int) (timestamp_filter : Option TimestampFilter)
    (ns : Option String) : Except Unit MemorySearchResult :=
  processResponse (engine (searchQuery query_text owner limit timestamp_filter ns))

/-- One record of the bulk-retrieval result. Modelled from the spec:
`lib/vector_db.py` is not part of this tree; §6 gives
`collection.get() → sequence of {metadatas: sequence of mapping}`. -/
structure GetRecord where
  metadatas : List Meta
deriving DecidableEq, Repr

/-- `LongTermMemory.get_namespaces`: the comprehension
`[r["metadatas"][0]["namespace"] for r in results]`; an `IndexError` on an
empty `metadatas` sequence or a `KeyError` on a missing `namespace` key aborts
the whole comprehension. -/
def get_namespaces : List GetRecord → Except Unit (List Value)
  | [] => Except.ok []
  | r :: rest =>
    match r.metadatas with
    | [] => Except.error ()
    | m :: _ =>
      match assocLookup m "namespace" with
      | none => Except.error ()
      | some v =>
        match get_namespaces rest with
        | Except.error e => Except.error e
        | Except.ok vs => Except.ok (v :: vs)

/-- Contents of one collection: stored records as content/metadata pairs, in
insertion order. -/
abbrev CState := List (String × Meta)

/-- Modelled from the spec: the engine's bulk retrieval (`collection.get`,
§6) returns one record per stored item, each exposing its metadata mapping as
a singleton `metadatas` sequence. -/
def engineGet (st : CState) : List GetRecord :=
  st.map fun cm => ⟨[cm.2]⟩

/-- The engine factory's collection table, by collection name. -/
abbrev EngineState := List (String × CState)

/-- Modelled from the spec: `create_collection(name, force)` (§6) with
`force=true` destroys and recreates any existing collection of that name, so
the name ends bound to an empty collection; with `force=false` an existing
collection is kept (source never takes that branch). -/
def create_store (s : EngineState) (name : String) (force : Bool) : EngineState :=
  if force then assocInsert s name []
  else
    match assocLookup s name with
    | some _ => s
    | none => assocInsert s name []

/-- `LongTermMemory.__init__`: `db.create_store("long_term_memory", force=True)`. -/
def longTermMemoryInit (s : EngineState) : EngineState :=
  create_store s "long_term_memory" true

/-- Modelled from the spec: whether a metadata mapping satisfies one conjunct
of the filter grammar `{field: {"$eq"|"$gt"|"$lt": value}}` (§6); `$eq`
compares for equality, `$gt`/`$lt` compare integer timestamps. -/
def matchesCond (m : Meta) (c : Cond) : Bool :=
  match c.op, assocLookup m c.field with
  | Op.eq, some v => v = c.value
  | Op.gt, some (Value.int n) =>
    (match c.value with
     | Value.int b => b < n
     | _ => false)
  | Op.lt, some (Value.int n) =>
    (match c.value with
     | Value.int b => n < b
     | _ => false)
  | _, _ => false

/-- Modelled from the spec: a record matches the `$and` predicate when it
matches every conjunct (§4.1, conjunctive semantics). -/
def matchesWhere (m : Meta) (w : List Cond) : Bool :=
  w.all (matchesCond m)

/-- A sample stored-record metadata mapping, as `register` would produce. -/
def metaA : Meta :=
  [("owner", Value.str "A"), ("namespace", Value.str "work"), ("timestamp", Value.int 7)]

/-- A response whose inner documents/metadatas lists are longer than its
distance list (the `distances` key is absent). -/
def respMisaligned : EngineResponse :=
  ⟨some [["a"]], some [[metaA]], none⟩

/-- A well-formed response: one document, one metadata record, one distance. -/
def respAligned : EngineResponse :=
  ⟨some [["a"]], some [[metaA]], some [[1]]⟩

/-- A response with `documents`/`distances` absent but `metadatas` bound to an
empty outer list. -/
def respAbsentAndEmpty : EngineResponse :=
  ⟨none, some [], none⟩

/-- A response with `documents` absent and the other keys well-formed. -/
def respDocsAbsent : EngineResponse :=
  ⟨none, some [[metaA]], some [[1]]⟩

/-- A response whose only anomaly is `distances` bound to an empty outer list. -/
def respDistancesEmptyOuter : EngineResponse :=
  ⟨none, none, some []⟩

theorem assocLookup_insert_self {β : Type} (m : List (String × β)) (k : String) (v : β) :
    assocLookup (assocInsert m k v) k = some v := by
  induction m with
  | nil => simp [assocInsert, assocLookup]
  | cons kv rest ih =>
    obtain ⟨k₀, v₀⟩ := kv
    by_cases h : k₀ = k <;> simp [assocInsert, assocLookup, h, ih]

theorem assocLookup_insert_ne {β : Type} (m : List (String × β)) (k : String) (v : β)
    (k' : String) (h : k ≠ k') :
    assocLookup (assocInsert m k v) k' = assocLookup m k' := by
  induction m with
  | nil => simp [assocInsert, assocLookup, h]
  | cons kv rest ih =>
    obtain ⟨k₀, v₀⟩ := kv
    by_cases h₀ : k₀ = k <;> simp [assocInsert, assocLookup, h₀, h, ih]

theorem assocLookup_isSome_of_mem {β : Type} (m : List (String × β)) (kv : String × β)
    (h : kv ∈ m) : (assocLookup m kv.1).isSome = true := by
  induction m with
  | nil => simp at h
  | cons kv₀ rest ih =>
    obtain ⟨k₀, v₀⟩ := kv₀
    rcases List.mem_cons.mp h with h₁ | h₁
    · subst h₁; simp [assocLookup]
    · by_cases h₀ : k₀ = kv.1 <;> simp [assocLookup, h₀, ih h₁]

theorem dictUpdate_cons (base : Meta) (kv : String × Value) (rest : Meta) :
    dictUpdate base (kv :: rest) = dictUpdate (assocInsert base kv.1 kv.2) rest := rfl

theorem assocLookup_dictUpdate_not_mem (base extra : Meta) (k : String)
    (h : ∀ kv ∈ extra, kv.1 ≠ k) :
    assocLookup (dictUpdate base extra) k = assocLookup base k := by
  induction extra generalizing base with
  | nil => rfl
  | cons kv rest ih =>
    rw [dictUpdate_cons]
    rw [ih _ fun kv₀ h₀ => h kv₀ (List.mem_cons_of_mem _ h₀)]
    exact assocLookup_insert_ne _ _ _ _ (h kv (List.mem_cons_self _ _))

theorem assocLookup_dictUpdate_of_lookup (base extra : Meta) (k : String) (v : Value)
    (hnd : (extra.map Prod.fst).Nodup) (h : assocLookup extra k = some v) :
    assocLookup (dictUpdate base extra) k = some v := by
  induction extra generalizing base with
  | nil => simp [assocLookup] at h
  | cons kv rest ih =>
    obtain ⟨k₀, v₀⟩ := kv
    rw [List.map_cons, List.nodup_cons] at hnd
    rw [dictUpdate_cons]
    by_cases hk : k₀ = k
    · subst hk
      simp [assocLookup] at h
      subst h
      rw [assocLookup_dictUpdate_not_mem]
      · exact assocLookup_insert_self _ _ _
      · intro kv₀ h₀ he
        exact hnd.1 (List.mem_map.mpr ⟨kv₀, h₀, he⟩)
    · simp [assocLookup, hk] at h
      exact ih _ hnd.2 h

/-- C1: the claim is false on the code: `register` merges with
`complete_metadata.update(metadata)`, so a caller-supplied binding of the
reserved key `owner` overwrites the fragment's own owner in the record passed
to the engine. Here a fragment owned by `"A"` registered with
`extra_metadata = {"owner": "B"}` yields a record mapping `owner` to `"B"`,
not to the fragment's field value `"A"`. -/
theorem C1_counterexample :
    assocLookup
        (registerMetadata ⟨"pasta", Value.str "A", Value.str "default", Value.int 1⟩
          (some [("owner", Value.str "B")])) "owner" = some (Value.str "B") ∧
    some (Value.str "B") ≠ some (Value.str "A") := by
  constructor
  · rfl
  · decide

/-- C1 (amended): on merge the caller-supplied `extra_metadata` takes
precedence over the three reserved keys (the reserved record is written
first, then updated with `extra_metadata`): every key bound in
`extra_metadata` keeps its `extra_metadata` value in the record passed to the
engine, and every key not bound there keeps the value from the reserved
record `{owner, namespace, timestamp}` built from the fragment's fields. -/
theorem C1_extra_metadata_precedence (f : MemoryFragment) (extra : Meta)
    (hnd : (extra.map Prod.fst).Nodup) (k : String) :
    (∀ v, assocLookup extra k = some v →
      assocLookup (registerMetadata f (some extra)) k = some v) ∧
    (assocLookup extra k = none →
      assocLookup (registerMetadata f (some extra)) k =
        assocLookup (registerMetadata f none) k) := by
  constructor
  · intro v h
    have hne : extra ≠ [] := by
      intro he
      rw [he] at h
      simp [assocLookup] at h
    simp only [registerMetadata, if_neg hne]
    exact assocLookup_dictUpdate_of_lookup _ _ _ _ hnd h
  · intro h
    by_cases hne : extra = []
    · rw [hne]
      simp [registerMetadata]
    · simp only [registerMetadata, if_neg hne]
      apply assocLookup_dictUpdate_not_mem
      intro kv hkv he
      have hs := assocLookup_isSome_of_mem extra kv hkv
      rw [he, h] at hs
      simp at hs

/-- C1 witness: a fragment owned by `"A"` registered with the non-colliding
`extra_metadata = {"topic": "food"}` yields a record keeping `owner = "A"`
and adding `topic = "food"`. -/
theorem C1_witness :
    assocLookup
        (registerMetadata ⟨"pasta", Value.str "A", Value.str "default", Value.int 1⟩
          (some [("topic", Value.str "food")])) "owner" = some (Value.str "A") ∧
    assocLookup
        (registerMetadata ⟨"pasta", Value.str "A", Value.str "default", Value.int 1⟩
          (some [("topic", Value.str "food")])) "topic" = some (Value.str "food") := by
  have h₁ := C1_extra_metadata_precedence
    ⟨"pasta", Value.str "A", Value.str "default", Value.int 1⟩
    [("topic", Value.str "food")] (by decide) "owner"
  have h₂ := C1_extra_metadata_precedence
    ⟨"pasta", Value.str "A", Value.str "default", Value.int 1⟩
    [("topic", Value.str "food")] (by decide) "topic"
  exact ⟨(h₁.2 (by decide)).trans (by decide), h₂.1 (Value.str "food") (by decide)⟩

/-- C9: construction asks the factory for the collection named
`"long_term_memory"` with `force=True`, so whatever collection of that name
existed in the factory state before, afterwards the name is bound to a fresh
empty collection. -/
theorem C9_init_forces_empty_collection (s : EngineState) :
    assocLookup (longTermMemoryInit s) "long_term_memory" = some [] := by
  unfold longTermMemoryInit create_store
  simp only [if_pos rfl]
  exact assocLookup_insert_self s "long_term_memory" []

theorem mem_buildWhere_iff (owner : String) (ns : Option String)
    (tf : Option TimestampFilter) (c : Cond) :
    c ∈ buildWhere owner ns tf ↔
      c = Cond.mk "namespace" Op.eq (valueOfOptStr ns) ∨
      c = Cond.mk "owner" Op.eq (Value.str owner) ∨
      (∃ t g, tf = some t ∧ t.greater_than_value = some g ∧ g ≠ 0 ∧
        c = Cond.mk "timestamp" Op.gt (Value.int g)) ∨
      (∃ t l, tf = some t ∧ t.lower_than_value = some l ∧ l ≠ 0 ∧
        c = Cond.mk "timestamp" Op.lt (Value.int l)) := by
  rcases tf with _ | ⟨gv, lv⟩
  · simp [buildWhere, baseWhere]
  · rcases gv with _ | g₀ <;> rcases lv with _ | l₀
    · simp [buildWhere, baseWhere, gtConds, ltConds]
    · by_cases hl : l₀ = 0 <;>
        simp [buildWhere, baseWhere, gtConds, ltConds, hl, and_assoc]
    · by_cases hg : g₀ = 0 <;>
        simp [buildWhere, baseWhere, gtConds, ltConds, hg, and_assoc]
    · by_cases hg : g₀ = 0 <;> by_cases hl : l₀ = 0 <;>
        simp [buildWhere, baseWhere, gtConds, ltConds, hg, hl, and_assoc, or_assoc]

/-- C2: the filter submitted by `search` always contains the namespace and
owner equality conditions; it contains a `timestamp $gt g` condition exactly
when a filter was passed whose `greater_than_value` is the truthy `g`, a
`timestamp $lt l` condition exactly when a filter was passed whose
`lower_than_value` is the truthy `l`, and nothing else. -/
theorem C2_filter_construction (q : String) (limit : Int) (owner : String)
    (ns : Option String) (tf : Option TimestampFilter) :
    Cond.mk "namespace" Op.eq (valueOfOptStr ns) ∈
        (searchQuery q owner limit tf ns).whereFilter ∧
    Cond.mk "owner" Op.eq (Value.str owner) ∈
        (searchQuery q owner limit tf ns).whereFilter ∧
    (∀ g : Int, Cond.mk "timestamp" Op.gt (Value.int g) ∈
        (searchQuery q owner limit tf ns).whereFilter ↔
      ∃ t, tf = some t ∧ t.greater_than_value = some g ∧ g ≠ 0) ∧
    (∀ l : Int, Cond.mk "timestamp" Op.lt (Value.int l) ∈
        (searchQuery q owner limit tf ns).whereFilter ↔
      ∃ t, tf = some t ∧ t.lower_than_value = some l ∧ l ≠ 0) ∧
    (∀ c ∈ (searchQuery q owner limit tf ns).whereFilter,
      c = Cond.mk "namespace" Op.eq (valueOfOptStr ns) ∨
      c = Cond.mk "owner" Op.eq (Value.str owner) ∨
      (∃ g : Int, c = Cond.mk "timestamp" Op.gt (Value.int g)) ∨
      (∃ l : Int, c = Cond.mk "timestamp" Op.lt (Value.int l))) := by
  refine ⟨?_, ?_, ?_, ?_, ?_⟩
  · exact (mem_buildWhere_iff owner ns tf _).mpr (Or.inl rfl)
  · exact (mem_buildWhere_iff owner ns tf _).mpr (Or.inr (Or.inl rfl))
  · intro g
    rw [show (searchQuery q owner limit tf ns).whereFilter = buildWhere owner ns tf from rfl,
      mem_buildWhere_iff]
    simp
  · intro l
    rw [show (searchQuery q owner limit tf ns).whereFilter = buildWhere owner ns tf from rfl,
      mem_buildWhere_iff]
    simp
  · intro c hc
    rcases (mem_buildWhere_iff owner ns tf c).mp hc with h | h | ⟨t, g, _, _, _, h⟩ | ⟨t, l, _, _, _, h⟩
    · exact Or.inl h
    · exact Or.inr (Or.inl h)
    · exact Or.inr (Or.inr (Or.inl ⟨g, h⟩))
    · exact Or.inr (Or.inr (Or.inr ⟨l, h⟩))

/-- C2 witness: searching as `"alice"` in namespace `"work"` with bounds
`greater_than_value=5` (truthy, kept) and `lower_than_value=0` (falsy,
dropped): the filter contains the owner condition and the `$gt 5` condition,
no `$lt` condition, and its first element is one of the allowed shapes. -/
theorem C2_witness :
    Cond.mk "owner" Op.eq (Value.str "alice") ∈
      (searchQuery "q" "alice" 3 (some ⟨some 5, some 0⟩) (some "work")).whereFilter ∧
    Cond.mk "timestamp" Op.gt (Value.int 5) ∈
      (searchQuery "q" "alice" 3 (some ⟨some 5, some 0⟩) (some "work")).whereFilter ∧
    ¬ Cond.mk "timestamp" Op.lt (Value.int 0) ∈
      (searchQuery "q" "alice" 3 (some ⟨some 5, some 0⟩) (some "work")).whereFilter ∧
    (Cond.mk "namespace" Op.eq (Value.str "work") =
        Cond.mk "namespace" Op.eq (valueOfOptStr (some "work")) ∨
      Cond.mk "namespace" Op.eq (Value.str "work") = Cond.mk "owner" Op.eq (Value.str "alice") ∨
      (∃ g : Int, Cond.mk "namespace" Op.eq (Value.str "work") =
        Cond.mk "timestamp" Op.gt (Value.int g)) ∨
      (∃ l : Int, Cond.mk "namespace" Op.eq (Value.str "work") =
        Cond.mk "timestamp" Op.lt (Value.int l))) := by
  have h := C2_filter_construction "q" 3 "alice" (some "work") (some ⟨some 5, some 0⟩)
  refine ⟨h.2.1, ?_, ?_, ?_⟩
  · exact (h.2.2.1 5).mpr ⟨⟨some 5, some 0⟩, rfl, rfl, by decide⟩
  · intro hmem
    rcases (h.2.2.2.1 0).mp hmem with ⟨t, _, _, h0⟩
    exact h0 rfl
  · exact h.2.2.2.2 (Cond.mk "namespace" Op.eq (Value.str "work")) (by decide)

/-- C3: a `TimestampFilter` whose `greater_than_value` is `0` builds exactly
the engine query of the identical call without that lower bound (whether the
comparison point is a filter with `greater_than_value=None` or, when no other
bound is set, no filter at all), and hence `search` returns the same result
for any engine. -/
theorem C3_zero_lower_bound_omitted (q owner : String) (limit : Int)
    (ns : Option String) (lv : Option Int) :
    searchQuery q owner limit (some ⟨some 0, lv⟩) ns =
      searchQuery q owner limit (some ⟨none, lv⟩) ns ∧
    searchQuery q owner limit (some ⟨some 0, none⟩) ns =
      searchQuery q owner limit none ns ∧
    ∀ engine : EngineQuery → EngineResponse,
      search engine q owner limit (some ⟨some 0, lv⟩) ns =
        search engine q owner limit (some ⟨none, lv⟩) ns := by
  have hq : searchQuery q owner limit (some ⟨some 0, lv⟩) ns =
      searchQuery q owner limit (some ⟨none, lv⟩) ns := by
    simp [searchQuery, buildWhere, gtConds, ltConds]
  refine ⟨hq, ?_, ?_⟩
  · simp [searchQuery, buildWhere, gtConds, ltConds]
  · intro engine
    simp only [search, hq]

theorem getOuter_ok {α : Type} (o : Option (List (List α))) (h : outerOkB o = true) :
    ∃ inner, getOuter o = Except.ok inner ∧ (o = none → inner = []) := by
  rcases o with _ | l
  · exact ⟨[], rfl, fun _ => rfl⟩
  · rcases l with _ | ⟨h₀, t⟩
    · simp [outerOkB] at h
    · exact ⟨h₀, rfl, by simp⟩

theorem innerLen_of_getOuter_ok {α : Type} (o : Option (List (List α))) (l : List α)
    (h : getOuter o = Except.ok l) : innerLen o = l.length := by
  rcases o with _ | ll
  · simp only [getOuter, Option.getD, headOrError] at h
    cases h
    rfl
  · rcases ll with _ | ⟨h₀, t⟩
    · simp [getOuter, headOrError] at h
    · simp only [getOuter, Option.getD, headOrError] at h
      cases h
      rfl

/-- C10: when the engine's response binds `documents`, `metadatas` or
`distances` to an empty outer list, the `[0]` indexing in `search` raises an
`IndexError` instead of producing an (empty) result: the `[[]]` defaulting
protects only against absent keys. -/
theorem C10_empty_outer_list_raises (r : EngineResponse)
    (h : r.documents = some [] ∨ r.metadatas = some [] ∨ r.distances = some []) :
    processResponse r = Except.error () := by
  rcases r with ⟨d, m, x⟩
  rcases h with h | h | h <;> subst h
  · rfl
  · cases hd : getOuter d with
    | error e => simp only [processResponse, Bind.bind, Except.bind, hd]
    | ok docs =>
      simp only [processResponse, Bind.bind, Except.bind, hd]
      rfl
  · cases hd : getOuter d with
    | error e => simp only [processResponse, Bind.bind, Except.bind, hd]
    | ok docs =>
      cases hm : getOuter m with
      | error e => simp only [processResponse, Bind.bind, Except.bind, hd, hm]
      | ok metas =>
        simp only [processResponse, Bind.bind, Except.bind, hd, hm]
        rfl

/-- C10 witness: a response that is well-formed except for `distances` bound
to the empty outer list raises. -/
theorem C10_witness : processResponse respDistancesEmptyOuter = Except.error () :=
  C10_empty_outer_list_raises respDistancesEmptyOuter (Or.inr (Or.inr rfl))

/-- C5: the claim is false as stated: a response with an absent key can still
raise when another key is present but bound to an empty outer list. Here
`documents` and `distances` are absent, yet the response errors because
`metadatas` is `[]`. -/
theorem C5_counterexample :
    respAbsentAndEmpty.documents = none ∧ respAbsentAndEmpty.distances = none ∧
    processResponse respAbsentAndEmpty = Except.error () :=
  ⟨rfl, rfl, rfl⟩

/-- C5 (amended): provided every key that is present is bound to a nonempty
outer list, `search` does not raise: each absent field defaults to an empty
sequence (absent `documents` or `metadatas` gives zero fragments, absent
`distances` gives an empty distance sequence), and in particular the response
missing all three keys yields the empty result rather than an error. -/
theorem C5_absent_keys_default (r : EngineResponse)
    (hd : outerOkB r.documents = true) (hm : outerOkB r.metadatas = true)
    (hx : outerOkB r.distances = true) :
    isOkB (processResponse r) = true ∧
    (∀ res, processResponse r = Except.ok res →
      ((r.documents = none ∨ r.metadatas = none) → res.fragments = []) ∧
      (r.distances = none → res.metadata = [("distances", [])])) ∧
    processResponse ⟨none, none, none⟩ =
      Except.ok ⟨[], [("distances", [])]⟩ := by
  obtain ⟨docs, hdocs, hdnone⟩ := getOuter_ok _ hd
  obtain ⟨metas, hmetas, hmnone⟩ := getOuter_ok _ hm
  obtain ⟨dists, hdists, hxnone⟩ := getOuter_ok _ hx
  have hp : processResponse r =
      Except.ok ⟨rebuildFragments docs metas, [("distances", dists)]⟩ := by
    simp [processResponse, hdocs, hmetas, hdists, Bind.bind, Except.bind, pure, Except.pure]
  refine ⟨by simp [hp, isOkB], ?_, rfl⟩
  intro res hres
  rw [hp] at hres
  injection hres with hres
  subst hres
  constructor
  · rintro (h | h)
    · simp [rebuildFragments, hdnone h]
    · simp [rebuildFragments, hmnone h]
  · intro h
    simp [hxnone h]

/-- C5 witness: a response with `documents` absent and the other keys
well-formed neither raises nor yields any fragment. -/
theorem C5_witness :
    isOkB (processResponse respDocsAbsent) = true ∧
    (MemorySearchResult.mk [] [("distances", [1])]).fragments = [] := by
  have h := C5_absent_keys_default respDocsAbsent (by decide) (by decide) (by decide)
  exact ⟨h.1, ((h.2.1 ⟨[], [("distances", [1])]⟩ (by rfl)).1 (Or.inl rfl))⟩

/-- C4: the claim is false over arbitrary engine responses: a response whose
`documents` and `metadatas` carry one entry but whose `distances` key is
absent produces one fragment and zero distances. -/
theorem C4_counterexample :
    processResponse respMisaligned =
      Except.ok ⟨[⟨"a", Value.str "A", Value.str "work", Value.int 7⟩],
        [("distances", [])]⟩ ∧
    ¬ (MemorySearchResult.mk [⟨"a", Value.str "A", Value.str "work", Value.int 7⟩]
        [("distances", [])]).fragments.length =
      (resultDistances ⟨[⟨"a", Value.str "A", Value.str "work", Value.int 7⟩],
        [("distances", [])]⟩).length := by
  constructor
  · rfl
  · decide

/-- C4 (amended): for every engine response whose (defaulted) first inner
`documents`, `metadatas` and `distances` lists have equal lengths — which
§6's engine contract guarantees of real responses — the returned result has
exactly as many fragments as distances. -/
theorem C4_alignment (r : EngineResponse)
    (h₁ : innerLen r.documents = innerLen r.metadatas)
    (h₂ : innerLen r.metadatas = innerLen r.distances) :
    ∀ res, processResponse r = Except.ok res →
      res.fragments.length = (resultDistances res).length := by
  intro res hres
  cases hd : getOuter r.documents with
  | error e => simp [processResponse, hd, Bind.bind, Except.bind] at hres
  | ok docs =>
    cases hm : getOuter r.metadatas with
    | error e => simp [processResponse, hd, hm, Bind.bind, Except.bind] at hres
    | ok metas =>
      cases hx : getOuter r.distances with
      | error e => simp [processResponse, hd, hm, hx, Bind.bind, Except.bind] at hres
      | ok dists =>
        simp only [processResponse, hd, hm, hx, Bind.bind, Except.bind] at hres
        injection hres with hres
        subst hres
        have e₁ := innerLen_of_getOuter_ok _ _ hd
        have e₂ := innerLen_of_getOuter_ok _ _ hm
        have e₃ := innerLen_of_getOuter_ok _ _ hx
        rw [e₁, e₂] at h₁
        rw [e₂, e₃] at h₂
        simp [rebuildFragments, resultDistances, List.lookup, List.length_zip, h₁, h₂]

/-- C4 witness: a well-formed singleton response yields one fragment and one
distance. -/
theorem C4_witness :
    (MemorySearchResult.mk [⟨"a", Value.str "A", Value.str "work", Value.int 7⟩]
        [("distances", [1])]).fragments.length =
      (resultDistances (MemorySearchResult.mk
        [⟨"a", Value.str "A", Value.str "work", Value.int 7⟩]
        [("distances", [1])])).length :=
  C4_alignment respAligned (by decide) (by decide) _ (by rfl)

theorem mem_of_getOuter_ok {α : Type} (o : Option (List (List α))) (l : List α)
    (h : getOuter o = Except.ok l) : l ∈ o.getD [[]] := by
  rcases o with _ | ll
  · simp only [getOuter, Option.getD, headOrError] at h
    cases h
    simp
  · rcases ll with _ | ⟨h₀, t⟩
    · simp [getOuter, headOrError] at h
    · simp only [getOuter, Option.getD, headOrError] at h
      cases h
      simp

/-- C6: for a well-formed response (the three keys present with nonempty
outer lists, documents and metadatas index-aligned), `search` succeeds; the
result exposes the engine's distance list under the metadata key
`"distances"`, has one fragment per result position in exactly the engine's
return order, and position `i` is rebuilt by reading `owner` and `timestamp`
directly from metadata `i` (`None` when absent) and `namespace` from metadata
`i` with default `"default"`. -/
theorem C6_reconstruction (r : EngineResponse)
    (docs : List String) (dr : List (List String))
    (metas : List Meta) (mr : List (List Meta))
    (dists : List Rat) (xr : List (List Rat))
    (hd : r.documents = some (docs :: dr))
    (hm : r.metadatas = some (metas :: mr))
    (hx : r.distances = some (dists :: xr))
    (hlen : docs.length = metas.length) :
    isOkB (processResponse r) = true ∧
    ∀ res, processResponse r = Except.ok res →
      res.metadata = [("distances", dists)] ∧
      res.fragments.length = docs.length ∧
      ∀ i (h₁ : i < docs.length) (h₂ : i < metas.length)
          (h₃ : i < res.fragments.length),
        (res.fragments.get ⟨i, h₃⟩).content = docs.get ⟨i, h₁⟩ ∧
        (res.fragments.get ⟨i, h₃⟩).owner = dictGet (metas.get ⟨i, h₂⟩) "owner" ∧
        (res.fragments.get ⟨i, h₃⟩).«namespace» =
          dictGetD (metas.get ⟨i, h₂⟩) "namespace" (Value.str "default") ∧
        (res.fragments.get ⟨i, h₃⟩).timestamp = dictGet (metas.get ⟨i, h₂⟩) "timestamp" := by
  have hp : processResponse r =
      Except.ok ⟨rebuildFragments docs metas, [("distances", dists)]⟩ := by
    simp [processResponse, hd, hm, hx, getOuter, headOrError, Bind.bind, Except.bind,
      pure, Except.pure]
  refine ⟨by simp [hp, isOkB], ?_⟩
  intro res hres
  rw [hp] at hres
  injection hres with hres
  subst hres
  refine ⟨rfl, ?_, ?_⟩
  · simp [rebuildFragments, List.length_zip, hlen]
  · intro i h₁ h₂ h₃
    simp only [rebuildFragments, List.get_eq_getElem, List.getElem_map, List.getElem_zip]
    exact ⟨trivial, trivial, trivial, trivial⟩

/-- C6 witness: on a singleton well-formed response the one fragment carries
the document text and the metadata-derived owner, namespace and timestamp. -/
theorem C6_witness :
    isOkB (processResponse respAligned) = true ∧
    ((MemorySearchResult.mk [⟨"a", Value.str "A", Value.str "work", Value.int 7⟩]
        [("distances", [1])]).fragments.get ⟨0, by decide⟩).owner =
      dictGet metaA "owner" := by
  have h := C6_reconstruction respAligned ["a"] [] [metaA] [] [1] [] rfl rfl rfl rfl
  refine ⟨h.1, ?_⟩
  have h₂ := h.2 ⟨[⟨"a", Value.str "A", Value.str "work", Value.int 7⟩],
    [("distances", [1])]⟩ (by rfl)
  exact (h₂.2.2 0 (by decide) (by decide) (by decide)).2.1

theorem get_namespaces_engineGet (st : CState)
    (h : ∀ cm ∈ st, (assocLookup cm.2 "namespace").isSome = true) :
    get_namespaces (engineGet st) =
      Except.ok (st.map fun cm => dictGet cm.2 "namespace") := by
  induction st with
  | nil => rfl
  | cons cm rest ih =>
    obtain ⟨v, hv⟩ := Option.isSome_iff_exists.mp (h cm (List.mem_cons_self _ _))
    have hr := ih fun x hx => h x (List.mem_cons_of_mem _ hx)
    simp only [engineGet] at hr
    simp [engineGet, get_namespaces, hv, dictGet, hr]

/-- C7: over any collection whose records carry a `namespace` metadata field
(as every record stored by `register` does), `get_namespaces` projects the
`namespace` field of every stored record, one entry per record in store
order, without deduplication; on the empty collection it returns the empty
sequence. -/
theorem C7_get_namespaces (st : CState)
    (h : ∀ cm ∈ st, (assocLookup cm.2 "namespace").isSome = true) :
    get_namespaces (engineGet st) =
      Except.ok (st.map fun cm => dictGet cm.2 "namespace") ∧
    (st.map fun cm => dictGet cm.2 "namespace").length = st.length ∧
    get_namespaces (engineGet ([] : CState)) = Except.ok [] :=
  ⟨get_namespaces_engineGet st h, by simp, rfl⟩

/-- C7 witness: two records sharing namespace `"n1"` yield `"n1"` twice. -/
theorem C7_witness :
    get_namespaces (engineGet
      [("c1", [("namespace", Value.str "n1")]), ("c2", [("namespace", Value.str "n1")])]) =
      Except.ok [Value.str "n1", Value.str "n1"] := by
  have h := C7_get_namespaces
    [("c1", [("namespace", Value.str "n1")]), ("c2", [("namespace", Value.str "n1")])]
    (by decide)
  simpa using h.1

/-- C8: if the engine only returns records satisfying the submitted filter,
then a search scoped to owner `A` only yields fragments whose owner is `A`,
and in particular never one registered under a different owner `B`. -/
theorem C8_owner_isolation (A B : String) (hAB : A ≠ B) (ns : Option String)
    (tf : Option TimestampFilter) (r : EngineResponse) (res : MemorySearchResult)
    (hok : processResponse r = Except.ok res)
    (hmatch : ∀ metas ∈ r.metadatas.getD [[]], ∀ m ∈ metas,
      matchesWhere m (buildWhere A ns tf) = true) :
    ∀ frag ∈ res.fragments, frag.owner = Value.str A ∧ frag.owner ≠ Value.str B := by
  cases hd : getOuter r.documents with
  | error e => simp [processResponse, hd, Bind.bind, Except.bind] at hok
  | ok docs =>
  cases hm : getOuter r.metadatas with
  | error e => simp [processResponse, hd, hm, Bind.bind, Except.bind] at hok
  | ok metas =>
  cases hx : getOuter r.distances with
  | error e => simp [processResponse, hd, hm, hx, Bind.bind, Except.bind] at hok
  | ok dists =>
  simp only [processResponse, hd, hm, hx, Bind.bind, Except.bind] at hok
  injection hok with hok
  subst hok
  intro frag hfrag
  simp only [rebuildFragments, List.mem_map] at hfrag
  obtain ⟨p, hp, rfl⟩ := hfrag
  have hpm : p.2 ∈ metas := (List.of_mem_zip hp).2
  have hw := hmatch metas (mem_of_getOuter_ok _ _ hm) p.2 hpm
  have hc := List.all_eq_true.mp hw _
    ((mem_buildWhere_iff A ns tf _).mpr (Or.inr (Or.inl rfl)))
  simp only [matchesCond] at hc
  cases hv : assocLookup p.2 "owner" with
  | none => rw [hv] at hc; simp at hc
  | some v =>
    rw [hv] at hc
    simp only [decide_eq_true_eq] at hc
    constructor
    · simp [dictGet, hv, hc]
    · simp only [dictGet, hv, hc]
      intro hcontr
      exact hAB (Value.str.inj hcontr)

/-- C8 witness: with every returned record matching the owner-`"A"` filter,
the reconstructed fragment is owned by `"A"` and not by `"B"`. -/
theorem C8_witness :
    (MemoryFragment.mk "a" (Value.str "A") (Value.str "work") (Value.int 7)).owner =
      Value.str "A" ∧
    (MemoryFragment.mk "a" (Value.str "A") (Value.str "work") (Value.int 7)).owner ≠
      Value.str "B" := by
  have h := C8_owner_isolation "A" "B" (by decide) (some "work") none respAligned
    ⟨[⟨"a", Value.str "A", Value.str "work", Value.int 7⟩], [("distances", [1])]⟩
    (by rfl) (by decide)
  exact h _ (by decide)

end LongMemory
